import Mathlib

/-!
Shallow embedding of the streaming research-discovery pipeline of
`backend/app/services/research.py` (and the event stream of
`backend/app/api/routes.py::discover_research_papers`).

Conventions of the embedding:
* Python `float` values are modelled as `ℚ` (exact arithmetic); the single
  irrational operation, `math.sqrt` inside `_retrieve_candidates`, is kept
  abstract as an explicit parameter `sqrtFn : ℕ → ℚ`, so statements quantify
  over every possible value the square root could take.
* Fallible code (code that may raise `ResearchServiceError`) returns
  `Except String _`, the string being the exact message raised.
* HTTP responses are modelled by the shape the code inspects after the call:
  a missing / structurally-wrong field is an `Option` that is `none`.
* Python's `list.sort` is stable; `List.insertionSort` (also stable, and for a
  total transitive comparator extensionally equal to any stable sort) models it.
-/

namespace Research

/-- A `DecidableEq` instance for `Except`, used to evaluate the embedding at
concrete inputs. -/
instance {ε α : Type _} [DecidableEq ε] [DecidableEq α] : DecidableEq (Except ε α)
  | .error a, .error b =>
    if h : a = b then .isTrue (by rw [h])
    else .isFalse (fun hh => by cases hh; exact h rfl)
  | .error _, .ok _ => .isFalse (fun hh => by cases hh)
  | .ok _, .error _ => .isFalse (fun hh => by cases hh)
  | .ok a, .ok b =>
    if h : a = b then .isTrue (by rw [h])
    else .isFalse (fun hh => by cases hh; exact h rfl)

/-- Python `str.strip(chars)` over a character class: drop matching characters
from both ends of the string. -/
def pyStrip (p : Char → Bool) (s : String) : String :=
  ⟨((s.data.dropWhile p).reverse.dropWhile p).reverse⟩

/-- Python `str.strip()` (no argument): strip whitespace from both ends. -/
def pyStripWs (s : String) : String :=
  pyStrip Char.isWhitespace s

/-- Split a character list at every occurrence of `sep` (the groups between
separators, in order; empty groups are kept, like Python `str.split(sep)`). -/
def splitOnChar (sep : Char) : List Char → List (List Char)
  | [] => [[]]
  | c :: rest =>
    match splitOnChar sep rest with
    | [] => if c = sep then [[], []] else [[c]]
    | g :: gs => if c = sep then [] :: g :: gs else (c :: g) :: gs

/-- Python `content.splitlines()` restricted to `'\n'` terminators (the only
line terminator relevant here); a trailing empty group is immaterial because
every consumer filters blank lines out. -/
def pySplitOn (sep : Char) (s : String) : List String :=
  (splitOnChar sep s.data).map (fun l => ⟨l⟩)

/-! ### Data model (`research.py`) -/

/-- Metadata for a single ArXiv paper (`ArxivPaper`). -/
structure ArxivPaper where
  paper_id : String
  title : String
  summary : String
  url : String
  published : String
deriving DecidableEq, Repr

/-- `ArxivPaper.to_document`: the formatted document string used for scoring. -/
def ArxivPaper.to_document (p : ArxivPaper) : String :=
  p.title ++ "\n" ++ p.summary

/-- A retrieval candidate with heuristic and rerank scores (`CandidateMatch`). -/
structure CandidateMatch where
  paper : ArxivPaper
  retrieval_score : ℚ
  rerank_score : Option ℚ := none
deriving DecidableEq, Repr

/-- A final research recommendation (`ResearchResult`). -/
structure ResearchResult where
  paper_id : String
  title : String
  summary : String
  url : String
  published : String
  relevance : ℚ
  justification : String
deriving DecidableEq, Repr

/-! ### `_load_index` -/

/-- One JSON object of the index file, as the fields `_load_index` reads;
`none` models a missing key. -/
structure IndexItem where
  paper_id : Option String
  title : Option String
  summary : Option String
  url : Option String
  published : Option String
deriving DecidableEq, Repr

/-- `_load_index` on already-JSON-decoded data: build the paper list, failing
on a missing required field or an empty index. -/
def load_index (data : List IndexItem) : Except String (List ArxivPaper) :=
  match go data with
  | .error e => .error e
  | .ok papers =>
    if papers.isEmpty then .error "ArXiv index is empty" else .ok papers
where
  go : List IndexItem → Except String (List ArxivPaper)
    | [] => .ok []
    | item :: rest =>
      match item.paper_id, item.title, item.summary, item.url with
      | some pid, some title, some summary, some url =>
        match go rest with
        | .error e => .error e
        | .ok papers =>
          .ok (⟨pid, title, summary, url, item.published.getD ""⟩ :: papers)
      | _, _, _, _ => .error "ArXiv index entry is missing required fields"

/-! ### `_expand_query`

The HTTP transport and `response.raise_for_status()` are outside the
embedding; the argument `content` is the result of extracting
`data["choices"][0]["message"]["content"]` from the reply: `none` models the
`KeyError/IndexError/TypeError` path (a structurally unexpected reply). -/

/-- The usable phrase lines of the reply content: split into lines, keep lines
with non-whitespace content, strip `"- "` characters from both ends, and drop
lines that became empty. -/
def usableLines (content : String) : List String :=
  (((pySplitOn '\n' content).filter
      (fun l => pyStripWs l ≠ "")).map
    (pyStrip (fun ch => ch = '-' || ch = ' '))).filter (fun l => l ≠ "")

/-- `_expand_query` after the language-model call returned. -/
def expand_query (query : String) (content : Option String) :
    Except String (List String) :=
  match content with
  | none => .error "Unexpected response from GPT-5 query expansion"
  | some c =>
    let expansions := usableLines c
    let expansions := if expansions = [] then [pyStripWs query] else expansions
    .ok (expansions.take 5)

/-! ### `_tokenize` and `_retrieve_candidates` -/

/-- `_tokenize`: lowercase alphanumeric runs of the text, as a set.  The
Python `set[str]` is modelled by its deduplicated support list (only sizes,
emptiness and intersection sizes of the set are ever consumed). -/
def tokenize (text : String) : List String :=
  let cleaned := text.data.map (fun ch => if ch.isAlphanum then ch.toLower else ' ')
  (((splitOnChar ' ' cleaned).map (fun l => (⟨l⟩ : String))).filter
    (fun t => t ≠ "")).dedup

/-- Size of the intersection of two token sets (`len(doc_tokens & q_tokens)`). -/
def interCard (doc q : List String) : ℕ :=
  (doc.filter (fun t => q.contains t)).length

/-- The heuristic retrieval score of one document against the token sets of
the query and all expansions; `sqrtFn` stands for `math.sqrt` applied to the
(natural) product of the two set sizes. -/
def retrievalScore (sqrtFn : ℕ → ℚ) (tokenSets : List (List String))
    (doc : List String) : ℚ :=
  tokenSets.foldl
    (fun acc q =>
      if q = [] then acc
      else acc +
        (if doc ≠ [] then (interCard doc q : ℚ) / sqrtFn (doc.length * q.length)
         else 0))
    0

/-- Comparator of the Python stable descending sort on `retrieval_score`. -/
def retrRel (a b : CandidateMatch) : Prop :=
  b.retrieval_score ≤ a.retrieval_score

instance : DecidableRel retrRel := fun a b =>
  inferInstanceAs (Decidable (b.retrieval_score ≤ a.retrieval_score))

instance : IsTotal CandidateMatch retrRel :=
  ⟨fun a b => (le_total b.retrieval_score a.retrieval_score).imp id id⟩

instance : IsTrans CandidateMatch retrRel :=
  ⟨fun _ _ _ h₁ h₂ => le_trans h₂ h₁⟩

/-- `_retrieve_candidates`: score every corpus paper, keep the strictly
positively scored ones, sort by descending score (stable) and truncate. -/
def retrieve_candidates (sqrtFn : ℕ → ℚ) (papers : List ArxivPaper)
    (query : String) (expansions : List String) (limit : ℕ) :
    List CandidateMatch :=
  let tokenSets := tokenize query :: expansions.map tokenize
  let candidates := papers.filterMap (fun paper =>
    let score := retrievalScore sqrtFn tokenSets (tokenize paper.to_document)
    if 0 < score then some ⟨paper, score, none⟩ else none)
  (List.insertionSort retrRel candidates).take limit

/-! ### `_rerank_candidates` -/

/-- One element of `data["results"]` of the Cohere response, as the code
reads it: `index = none` models a missing `"index"` key (`KeyError`);
`relevance_score = none` models a missing `"relevance_score"` key (which
`entry.get` turns into `0.0`); `relevance_score = some none` models a present
but non-numeric value (`float` raises). -/
structure RerankEntry where
  index : Option Int
  relevance_score : Option (Option ℚ)
deriving DecidableEq, Repr

/-- The Cohere response body: `results = none` models a missing or
non-indexable `"results"` field. -/
structure RerankResponse where
  results : Option (List RerankEntry)
deriving DecidableEq, Repr

/-- Parse one rerank entry into `(index, score)`; any malformed entry raises
`ResearchServiceError("Cohere rerank response contained invalid entries")`. -/
def parseEntry (e : RerankEntry) : Except String (Int × ℚ) :=
  match e.index with
  | none => .error "Cohere rerank response contained invalid entries"
  | some i =>
    match e.relevance_score with
    | none => .ok (i, 0)
    | some none => .error "Cohere rerank response contained invalid entries"
    | some (some s) => .ok (i, s)

/-- The `for entry in results` loop building the `scores` dict: the first
malformed entry aborts; otherwise all pairs are collected in order. -/
def parseEntries : List RerankEntry → Except String (List (Int × ℚ))
  | [] => .ok []
  | e :: rest =>
    match parseEntry e with
    | .error m => .error m
    | .ok p =>
      match parseEntries rest with
      | .error m => .error m
      | .ok ps => .ok (p :: ps)

/-- One dict insertion `scores[index] = score`. -/
def dictUpd (f : Int → ℚ) (p : Int × ℚ) : Int → ℚ :=
  fun j => if j = p.1 then p.2 else f j

/-- The `scores` dict as a total lookup with default `0.0`
(`scores.get(idx, 0.0)`); later insertions overwrite earlier ones. -/
def scoreLookup (pairs : List (Int × ℚ)) : Int → ℚ :=
  pairs.foldl dictUpd (fun _ => 0)

/-- The `for idx, match in enumerate(candidates)` loop: assign
`rerank_score = scores.get(idx, 0.0)` positionally, starting at `idx`. -/
def assign_scores (scores : Int → ℚ) : List CandidateMatch → Int → List CandidateMatch
  | [], _ => []
  | m :: rest, idx =>
    { m with rerank_score := some (scores idx) } :: assign_scores scores rest (idx + 1)

/-- Sort key of the final stable descending sort: `match.rerank_score or 0.0`. -/
def rerankKey (m : CandidateMatch) : ℚ :=
  m.rerank_score.getD 0

/-- Comparator of the Python stable descending sort on the rerank key. -/
def rerankRel (a b : CandidateMatch) : Prop :=
  rerankKey b ≤ rerankKey a

instance : DecidableRel rerankRel := fun a b =>
  inferInstanceAs (Decidable (rerankKey b ≤ rerankKey a))

instance : IsTotal CandidateMatch rerankRel :=
  ⟨fun a b => (le_total (rerankKey b) (rerankKey a)).imp id id⟩

instance : IsTrans CandidateMatch rerankRel :=
  ⟨fun _ _ _ h₁ h₂ => le_trans h₂ h₁⟩

/-- `_rerank_candidates` after the (stubbed) Cohere call returned `resp`:
an empty candidate list short-circuits to `[]` before any service call. -/
def rerank_candidates (candidates : List CandidateMatch) (resp : RerankResponse) :
    Except String (List CandidateMatch) :=
  if candidates.isEmpty then .ok []
  else
    match resp.results with
    | none => .error "Unexpected response from Cohere rerank API"
    | some entries =>
      match parseEntries entries with
      | .error m => .error m
      | .ok pairs =>
        .ok (List.insertionSort rerankRel
          (assign_scores (scoreLookup pairs) candidates 0))

/-! ### `stream_search` (the service's event generator) -/

/-- The `payload` dict attached to a completed step event. -/
inductive StepPayload where
  | expansions (xs : List String)
  | candidates (xs : List (String × String × ℚ))
  | ranking (xs : List (String × Option ℚ))
deriving DecidableEq, Repr

/-- `ResearchStepEvent` / `ResearchResultsEvent`. -/
inductive ResearchEvent where
  | step (step_id : String) (status : String) (message : String)
      (payload : Option StepPayload)
  | results (results : List ResearchResult)
deriving DecidableEq, Repr

/-- Build a `ResearchResult` from a ranked match (`relevance` is
`match.rerank_score or 0.0`). -/
def mkResult (m : CandidateMatch) (justification : String) : ResearchResult :=
  { paper_id := m.paper.paper_id, title := m.paper.title,
    summary := m.paper.summary, url := m.paper.url,
    published := m.paper.published, relevance := m.rerank_score.getD 0,
    justification := justification }

/-- The sequential `_explain_relevance` loop of `stream_search`: `explainFn`
stubs one language-model explanation call (`Except.error` = the call raised);
the first failure aborts the whole loop. -/
def explainAll (explainFn : ArxivPaper → Except String String) :
    List CandidateMatch → Except String (List ResearchResult)
  | [] => .ok []
  | m :: rest =>
    match explainFn m.paper with
    | .error e => .error e
    | .ok j =>
      match explainAll explainFn rest with
      | .error e => .error e
      | .ok res => .ok (mkResult m j :: res)

/-- `stream_search`: the full pipeline generator.  The result is the list of
events yielded before the generator finished, paired with `some message` when
a stage raised `ResearchServiceError(message)` (aborting the stream) and
`none` on normal completion.  External calls are stubbed by `expandContent`
(the extracted GPT reply content), `rerankResp` and `explainFn`. -/
def stream_search (sqrtFn : ℕ → ℚ) (papers : List ArxivPaper)
    (expandContent : Option String) (rerankResp : RerankResponse)
    (explainFn : ArxivPaper → Except String String)
    (query : String) (max_results : ℕ) :
    List ResearchEvent × Option String :=
  if pyStripWs query = "" then ([], some "Query must not be empty")
  else
    let e1 := ResearchEvent.step "expand" "started"
      "Expanding the research query with GPT-5" none
    match expand_query query expandContent with
    | .error err => ([e1], some err)
    | .ok expansions =>
      let e2 := ResearchEvent.step "expand" "completed"
        "Generated expanded search intents" (some (.expansions expansions))
      let e3 := ResearchEvent.step "retrieve" "started"
        "Retrieving relevant ArXiv passages" none
      let candidates := retrieve_candidates sqrtFn papers query expansions (max_results * 4)
      let e4 := ResearchEvent.step "retrieve" "completed"
        ("Retrieved " ++ toString candidates.length ++ " candidate papers")
        (some (.candidates (candidates.map
          (fun m => (m.paper.paper_id, m.paper.title, m.retrieval_score)))))
      let e5 := ResearchEvent.step "rank" "started"
        "Reranking candidates with Cohere" none
      match rerank_candidates candidates rerankResp with
      | .error err => ([e1, e2, e3, e4, e5], some err)
      | .ok ranked =>
        let e6 := ResearchEvent.step "rank" "completed"
          "Ranked candidates with semantic similarity"
          (some (.ranking (ranked.map (fun m => (m.paper.paper_id, m.rerank_score)))))
        let e7 := ResearchEvent.step "explain" "started"
          "Using GPT-5 to explain relevance" none
        match explainAll explainFn (ranked.take max_results) with
        | .error err => ([e1, e2, e3, e4, e5, e6, e7], some err)
        | .ok finalResults =>
          let e8 := ResearchEvent.step "explain" "completed"
            "Prepared relevance explanations" none
          ([e1, e2, e3, e4, e5, e6, e7, e8, .results finalResults], none)

/-! ### `discover_research_papers` (`routes.py`): the streamed wire events

The route's `event_stream` wraps every stage call in one `try`, so any raised
exception turns into a single error event and the generator stops.  The four
service calls (`expand_query`, `retrieve_papers`, `rank_papers`,
`explain_relevance`) are stubbed by `Except`-valued parameters. -/

/-- The paper fields the route's events actually read. -/
structure RoutePaper where
  paper_id : String
  title : String
deriving DecidableEq, Repr

/-- One JSONL event emitted by the route's `event_stream`. -/
inductive RouteEvent where
  | status (stage : String) (message : String)
  | expansion (expansions : List String)
  | retrieval (count : ℕ)
  | ranking (totalCandidates : ℕ) (ranked : List (RoutePaper × ℚ))
  | explanation (paper_id : String) (reason : String)
  | results (items : List (RoutePaper × ℚ × String))
  | error (message : String)
deriving DecidableEq, Repr

/-- Recognize an error event. -/
def RouteEvent.isErrorEvent : RouteEvent → Bool
  | .error _ => true
  | _ => false

/-- Recognize an expansion event. -/
def RouteEvent.isExpansionEvent : RouteEvent → Bool
  | .expansion _ => true
  | _ => false

/-- The `for paper, score in ranked` explanation loop of the route: yields a
status event and an explanation event per paper, accumulating the enriched
summaries; the first failing call yields the error event instead and stops
(`none` marks the aborted run). -/
def explainLoop (explainFn : RoutePaper → Except String String) :
    List (RoutePaper × ℚ) →
      List RouteEvent × Option (List (RoutePaper × ℚ × String))
  | [] => ([], some [])
  | (p, s) :: rest =>
    let statusEv := RouteEvent.status "explaining"
      ("Explaining relevance for " ++ p.title)
    match explainFn p with
    | .error e => ([statusEv, .error e], none)
    | .ok reason =>
      match explainLoop explainFn rest with
      | (evs, none) => (statusEv :: .explanation p.paper_id reason :: evs, none)
      | (evs, some items) =>
        (statusEv :: .explanation p.paper_id reason :: evs,
          some ((p, s, reason) :: items))

/-- The route's `event_stream` generator: the full ordered JSONL event list
of one request. -/
def discover_event_stream (top_k : ℕ)
    (expandR : Except String (List String))
    (retrieveR : Except String (List RoutePaper))
    (rankR : List RoutePaper → ℕ → Except String (List (RoutePaper × ℚ)))
    (explainFn : RoutePaper → Except String String) : List RouteEvent :=
  RouteEvent.status "expanding_query" "Expanding your description with GPT-5" ::
  match expandR with
  | .error e => [.error e]
  | .ok expansions =>
    .expansion expansions ::
    .status "retrieving_candidates" "Querying arXiv for candidate papers" ::
    match retrieveR with
    | .error e => [.error e]
    | .ok candidates =>
      .retrieval candidates.length ::
      .status "ranking" "Ranking candidates with Cohere's re-ranker" ::
      match rankR candidates top_k with
      | .error e => [.error e]
      | .ok ranked =>
        .ranking candidates.length ranked ::
        match explainLoop explainFn ranked with
        | (evs, none) => evs
        | (evs, some enriched) => evs ++ [.results enriched]

/-- Whether some stage of the route's run fails (raises) mid-stream. -/
def discoverFails (top_k : ℕ)
    (expandR : Except String (List String))
    (retrieveR : Except String (List RoutePaper))
    (rankR : List RoutePaper → ℕ → Except String (List (RoutePaper × ℚ)))
    (explainFn : RoutePaper → Except String String) : Bool :=
  match expandR with
  | .error _ => true
  | .ok _ =>
    match retrieveR with
    | .error _ => true
    | .ok candidates =>
      match rankR candidates top_k with
      | .error _ => true
      | .ok ranked => ranked.any (fun p => !(explainFn p.1).isOk)

/-! ### Concrete fixtures used by counterexamples and witnesses -/

/-- A paper whose only token is `foo`. -/
def pA : ArxivPaper := ⟨"1", "foo", "", "u", ""⟩

/-- A paper whose only token is `bar`. -/
def pB : ArxivPaper := ⟨"2", "bar", "", "v", ""⟩

/-- An index entry that loads to `pA`. -/
def itemA : IndexItem := ⟨some "1", some "foo", some "", some "u", none⟩

/-- A concrete stand-in for `math.sqrt` (its value never matters to the
properties at issue; the claims' theorems quantify over every `sqrtFn`). -/
def sqrt1 : ℕ → ℚ := fun _ => 1

/-- A candidate match over `pA`. -/
def cmA : CandidateMatch := ⟨pA, 1, none⟩

/-- A candidate match over `pB`. -/
def cmB : CandidateMatch := ⟨pB, 1, none⟩

/-- A rerank response with one well-formed entry and one entry missing its
`"index"` key. -/
def respWithBadEntry : RerankResponse :=
  ⟨some [⟨some 0, some (some 1)⟩, ⟨none, some (some 1)⟩]⟩

/-! ## C3 — expansion parse policy -/

/-- C3 counterexample: on a structurally unparsable language-model reply
(no extractable `content` string), `_expand_query` raises
`ResearchServiceError` rather than degrading to `[original query]`a —
refuting the claim that only a transport-level failure is fatal and that an
unparsable reply yields `[original query]`. -/
theorem expand_query_unparsable_raises :
    expand_query "quantum computing" none =
      .error "Unexpected response from GPT-5 query expansion" ∧
    ∀ l, expand_query "quantum computing" none ≠ .ok l :=
  ⟨rfl, fun _ h => Except.noConfusion h⟩

/-- C3 (amended): for a query with non-empty trimmed text, a reply whose
`content` string was extracted always yields a non-empty expansion list, and
whenever that content has no usable phrase lines (empty or unusable reply)
the result is exactly the one-element fallback `[stripped query]`; a reply
with no extractable `content` raises
`ResearchServiceError("Unexpected response from GPT-5 query expansion")`. -/
theorem expand_query_parse_policy (query content : String)
    (_hq : pyStripWs query ≠ "") :
    expand_query query none =
      .error "Unexpected response from GPT-5 query expansion" ∧
    (∃ l, expand_query query (some content) = .ok l ∧ l ≠ []) ∧
    (usableLines content = [] →
      expand_query query (some content) = .ok [pyStripWs query]) := by
  refine ⟨rfl, ?_, fun h => by simp [expand_query, h]⟩
  cases h : usableLines content with
  | nil => exact ⟨[pyStripWs query], by simp [expand_query, h], by simp⟩
  | cons a t =>
    exact ⟨a :: t.take 4, by simp [expand_query, h], by simp⟩

/-- Witness for `expand_query_parse_policy` at a concrete query and an empty
reply content, exercising the exact-fallback branch. -/
theorem expand_query_parse_policy_witness :
    pyStripWs "graph neural networks" ≠ "" ∧
    (expand_query "graph neural networks" none =
        .error "Unexpected response from GPT-5 query expansion" ∧
      (∃ l, expand_query "graph neural networks" (some "") = .ok l ∧ l ≠ []) ∧
      (usableLines "" = [] →
        expand_query "graph neural networks" (some "") =
          .ok [pyStripWs "graph neural networks"])) :=
  ⟨by decide, expand_query_parse_policy "graph neural networks" "" (by decide)⟩

/-! ## C8 — the original query as an expansion member -/

/-- C8 counterexample: when the reply yields usable phrases, the expansion is
exactly those phrases and need not contain the original query. -/
theorem expand_query_without_query_member :
    expand_query "transformers" (some "state space models") =
      .ok ["state space models"] ∧
    "transformers" ∉ ["state space models"] :=
  ⟨by decide, by decide⟩

/-- C8 (amended): the expansion contains the original (stripped) query exactly
in the fallback case — whenever the reply contains no usable phrase lines, the
expansion is the one-element list `[stripped query]`, which contains it. -/
theorem expand_query_fallback_contains_query (query content : String)
    (h : usableLines content = []) :
    expand_query query (some content) = .ok [pyStripWs query] ∧
    pyStripWs query ∈ [pyStripWs query] := by
  exact ⟨by simp [expand_query, h], List.mem_singleton.mpr rfl⟩

/-- Witness for `expand_query_fallback_contains_query` on a reply made of
dashes and blanks only. -/
theorem expand_query_fallback_contains_query_witness :
    usableLines "- \n ---" = [] ∧
    (expand_query " hi " (some "- \n ---") = .ok [pyStripWs " hi "] ∧
      pyStripWs " hi " ∈ [pyStripWs " hi "]) :=
  ⟨by decide, expand_query_fallback_contains_query " hi " "- \n ---" (by decide)⟩

/-! ## C10 — expansions truncated to five -/

/-- C10: every successful expansion has at most 5 elements (the parsed reply
lines are truncated by `expansions[:5]`). -/
theorem expand_query_at_most_five (query : String) (content : Option String)
    (l : List String) (h : expand_query query content = .ok l) :
    l.length ≤ 5 := by
  cases content with
  | none => exact absurd h (fun hh => Except.noConfusion hh)
  | some c =>
    simp only [expand_query] at h
    obtain rfl := (Except.ok.injEq _ _).mp h
    exact (List.length_take_le 5 _).trans (le_refl 5)

/-- Witness for `expand_query_at_most_five` on a seven-line reply. -/
theorem expand_query_at_most_five_witness :
    expand_query "x" (some "a\nb\nc\nd\ne\nf\ng") = .ok ["a", "b", "c", "d", "e"] ∧
    (["a", "b", "c", "d", "e"] : List String).length ≤ 5 :=
  ⟨by decide, expand_query_at_most_five "x" (some "a\nb\nc\nd\ne\nf\ng") _ (by decide)⟩

/-! ## C2 — retrieval deduplication -/

/-- Tail of a `filterMap` whose function keeps the paper of every kept
element: the papers of the result form a sublist of the input papers. -/
theorem filterMap_papers_sublist (f : ArxivPaper → Option CandidateMatch)
    (hf : ∀ p c, f p = some c → c.paper = p) :
    ∀ papers : List ArxivPaper, List.Sublist ((papers.filterMap f).map CandidateMatch.paper) papers := by
  intro papers
  induction papers with
  | nil => simp
  | cons p ps ih =>
    cases hfp : f p with
    | none => simpa [List.filterMap_cons, hfp] using ih.cons p
    | some c =>
      simpa [List.filterMap_cons, hfp, hf p c hfp] using ih.cons₂ p

/-- C2 counterexample: an index file with two entries sharing `paper_id`
loads to a two-paper corpus, and retrieval returns both — two candidates with
the same paper identity, refuting the dedup invariant. -/
theorem retrieve_duplicate_identity :
    load_index [itemA, itemA] = .ok [pA, pA] ∧
    (retrieve_candidates sqrt1 [pA, pA] "foo" [] 4).map
        (fun c => c.paper.paper_id) = ["1", "1"] ∧
    ¬ ((retrieve_candidates sqrt1 [pA, pA] "foo" [] 4).map
        (fun c => c.paper.paper_id)).Nodup := by
  have h : (retrieve_candidates sqrt1 [pA, pA] "foo" [] 4).map
      (fun c => c.paper.paper_id) = ["1", "1"] := by
    simp [retrieve_candidates, retrievalScore, tokenize, interCard, pA, sqrt1,
      ArxivPaper.to_document]
  exact ⟨by decide, h, by rw [h]; decide⟩

/-- C2 (amended): when the loaded corpus itself has pairwise-distinct
`paper_id`s, retrieval never returns two entries with the same identity —
each corpus entry contributes at most one candidate, and sorting and
truncation preserve distinctness. -/
theorem retrieve_nodup_ids (sqrtFn : ℕ → ℚ) (papers : List ArxivPaper)
    (query : String) (expansions : List String) (limit : ℕ)
    (h : (papers.map ArxivPaper.paper_id).Nodup) :
    ((retrieve_candidates sqrtFn papers query expansions limit).map
      (fun c => c.paper.paper_id)).Nodup := by
  unfold retrieve_candidates
  set f : ArxivPaper → Option CandidateMatch := fun paper =>
    let score := retrievalScore sqrtFn
      (tokenize query :: List.map tokenize expansions) (tokenize paper.to_document)
    if 0 < score then some ⟨paper, score, none⟩ else none with hfdef
  have hf : ∀ p c, f p = some c → c.paper = p := by
    intro p c hc
    simp only [hfdef] at hc
    split at hc
    · cases hc; rfl
    · exact absurd hc (fun hh => Option.noConfusion hh)
  have h₁ : List.Sublist (((papers.filterMap f).map CandidateMatch.paper).map ArxivPaper.paper_id)
      (papers.map ArxivPaper.paper_id) :=
    (filterMap_papers_sublist f hf papers).map ArxivPaper.paper_id
  have h₂ : ((papers.filterMap f).map (fun c => c.paper.paper_id)).Nodup := by
    have := h.sublist h₁
    simpa [List.map_map, Function.comp] using this
  have h₃ : ((List.insertionSort retrRel (papers.filterMap f)).map
      (fun c => c.paper.paper_id)).Nodup :=
    (((List.perm_insertionSort retrRel (papers.filterMap f)).map
      (fun c => c.paper.paper_id)).nodup_iff).mpr h₂
  have h₄ : List.Sublist
      ((((List.insertionSort retrRel (papers.filterMap f)).take limit).map
        (fun c => c.paper.paper_id)))
      ((List.insertionSort retrRel (papers.filterMap f)).map
        (fun c => c.paper.paper_id)) :=
    (List.take_sublist limit _).map _
  exact h₃.sublist h₄

/-- Witness for `retrieve_nodup_ids` on a two-paper corpus with distinct ids. -/
theorem retrieve_nodup_ids_witness :
    (([pA, pB].map ArxivPaper.paper_id).Nodup) ∧
    ((retrieve_candidates sqrt1 [pA, pB] "foo" ["bar"] 8).map
      (fun c => c.paper.paper_id)).Nodup :=
  ⟨by decide, retrieve_nodup_ids sqrt1 [pA, pB] "foo" ["bar"] 8 (by decide)⟩

/-! ## Rerank helper lemmas -/

/-- `assign_scores` keeps the list length. -/
theorem assign_scores_length (f : Int → ℚ) :
    ∀ (cs : List CandidateMatch) (idx : Int),
      (assign_scores f cs idx).length = cs.length
  | [], _ => rfl
  | _ :: rest, idx => by
    simp [assign_scores, assign_scores_length f rest (idx + 1)]

/-- Every element of `assign_scores` carries the paper of some input element. -/
theorem assign_scores_paper_mem (f : Int → ℚ) :
    ∀ (cs : List CandidateMatch) (idx : Int) (m : CandidateMatch),
      m ∈ assign_scores f cs idx → ∃ c ∈ cs, m.paper = c.paper
  | [], _, _, h => absurd h (List.not_mem_nil _)
  | c :: rest, idx, m, h => by
    rcases List.mem_cons.mp h with h | h
    · exact ⟨c, List.mem_cons_self c rest, by rw [h]⟩
    · obtain ⟨c', hc', hp⟩ := assign_scores_paper_mem f rest (idx + 1) m h
      exact ⟨c', List.mem_cons_of_mem c hc', hp⟩

/-- The only error `parseEntry` can raise. -/
theorem parseEntry_error_msg (e : RerankEntry) (m : String)
    (h : parseEntry e = .error m) :
    m = "Cohere rerank response contained invalid entries" := by
  rcases e with ⟨i, s⟩
  cases i with
  | none => cases h; rfl
  | some i =>
    cases s with
    | none => exact absurd h (fun hh => Except.noConfusion hh)
    | some s =>
      cases s with
      | none => cases h; rfl
      | some q => exact absurd h (fun hh => Except.noConfusion hh)

/-- An entry that fails to parse is raised as `ResearchServiceError`. -/
theorem parseEntry_error_of_not_ok (e : RerankEntry)
    (h : (parseEntry e).isOk = false) :
    parseEntry e = .error "Cohere rerank response contained invalid entries" := by
  cases he : parseEntry e with
  | error m => rw [parseEntry_error_msg e m he]
  | ok p => rw [he] at h; exact absurd h (by simp [Except.isOk, Except.toBool])

/-- A single malformed entry anywhere in the response aborts the score
parse with the invalid-entries error. -/
theorem parseEntries_error_of_mem :
    ∀ (entries : List RerankEntry) (e : RerankEntry), e ∈ entries →
      (parseEntry e).isOk = false →
      parseEntries entries = .error "Cohere rerank response contained invalid entries"
  | [], _, hmem, _ => absurd hmem (List.not_mem_nil _)
  | a :: rest, e, hmem, hbad => by
    cases hpa : parseEntry a with
    | error m =>
      simp only [parseEntries, hpa]
      rw [parseEntry_error_msg a m hpa]
    | ok p =>
      have he : e ∈ rest := by
        rcases List.mem_cons.mp hmem with h | h
        · subst h; rw [hpa] at hbad
          exact absurd hbad (by simp [Except.isOk, Except.toBool])
        · exact h
      simp only [parseEntries, hpa,
        parseEntries_error_of_mem rest e he hbad]

/-- When every entry parses, the whole response parses. -/
theorem parseEntries_ok_of_all :
    ∀ entries : List RerankEntry,
      (∀ e ∈ entries, (parseEntry e).isOk = true) →
      ∃ ps, parseEntries entries = .ok ps
  | [], _ => ⟨[], rfl⟩
  | a :: rest, h => by
    cases hpa : parseEntry a with
    | error m =>
      have := h a (List.mem_cons_self a rest)
      rw [hpa] at this
      exact absurd this (by simp [Except.isOk, Except.toBool])
    | ok p =>
      obtain ⟨ps, hps⟩ := parseEntries_ok_of_all rest
        (fun e he => h e (List.mem_cons_of_mem a he))
      exact ⟨p :: ps, by simp only [parseEntries, hpa, hps]⟩

/-- `parseEntries` distributes over append when both halves parse. -/
theorem parseEntries_append_ok :
    ∀ (l₁ l₂ : List RerankEntry) (p₁ p₂ : List (Int × ℚ)),
      parseEntries l₁ = .ok p₁ → parseEntries l₂ = .ok p₂ →
      parseEntries (l₁ ++ l₂) = .ok (p₁ ++ p₂)
  | [], _, p₁, _, h₁, h₂ => by
    cases h₁; simpa using h₂
  | a :: rest, l₂, p₁, p₂, h₁, h₂ => by
    cases hpa : parseEntry a with
    | error m => rw [parseEntries, hpa] at h₁; exact absurd h₁ (fun hh => Except.noConfusion hh)
    | ok p =>
      rw [parseEntries, hpa] at h₁
      cases hrest : parseEntries rest with
      | error m => rw [hrest] at h₁; exact absurd h₁ (fun hh => Except.noConfusion hh)
      | ok ps =>
        rw [hrest] at h₁
        obtain rfl : p :: ps = p₁ := by cases h₁; rfl
        have := parseEntries_append_ok rest l₂ ps p₂ hrest h₂
        simp only [List.cons_append, parseEntries, hpa, List.append_eq, this]

/-- Two dict states that agree away from `i` still agree away from `i` after
any sequence of insertions. -/
theorem foldl_dictUpd_congr :
    ∀ (ps : List (Int × ℚ)) (f g : Int → ℚ) (i : Int),
      (∀ j, j ≠ i → f j = g j) →
      ∀ j, j ≠ i → (ps.foldl dictUpd f) j = (ps.foldl dictUpd g) j
  | [], _, _, _, h, j, hj => h j hj
  | p :: ps, f, g, i, h, j, hj => by
    refine foldl_dictUpd_congr ps (dictUpd f p) (dictUpd g p) i ?_ j hj
    intro k hk
    unfold dictUpd
    split
    · rfl
    · exact h k hk

/-- Inserting a pair keyed off `i` does not change any lookup away from `i`. -/
theorem scoreLookup_middle (p₁ p₂ : List (Int × ℚ)) (i : Int) (s : ℚ)
    (j : Int) (hj : j ≠ i) :
    scoreLookup (p₁ ++ (i, s) :: p₂) j = scoreLookup (p₁ ++ p₂) j := by
  unfold scoreLookup
  rw [List.foldl_append, List.foldl_append, List.foldl_cons]
  refine foldl_dictUpd_congr p₂ _ _ i ?_ j hj
  intro k hk
  unfold dictUpd
  exact if_neg hk

/-- `assign_scores` only reads the lookup at the positions of the list. -/
theorem assign_scores_congr :
    ∀ (cs : List CandidateMatch) (f g : Int → ℚ) (idx : Int),
      (∀ j, idx ≤ j → j < idx + (cs.length : Int) → f j = g j) →
      assign_scores f cs idx = assign_scores g cs idx
  | [], _, _, _, _ => rfl
  | c :: rest, f, g, idx, h => by
    have hhead : f idx = g idx := by
      refine h idx le_rfl ?_
      have : (0 : Int) < ((c :: rest).length : Int) := by
        simp only [List.length_cons]
        omega
      omega
    have htail : assign_scores f rest (idx + 1) = assign_scores g rest (idx + 1) := by
      refine assign_scores_congr rest f g (idx + 1) ?_
      intro j h₁ h₂
      refine h j (by omega) ?_
      simp only [List.length_cons] at *
      omega
    simp only [assign_scores, hhead, htail]

/-! ## C1 — rerank ordering, stability, truncation -/

/-- C1: whenever `_rerank_candidates` succeeds, the ranked list truncated to
`top_k` (as `stream_search` does before building results) has non-increasing
rerank keys, its length is `min top_k (number of scored candidates)`, and the
sort is stable: any two score-assigned candidates in submission order whose
keys are already ordered stay in that order in the ranked list. -/
theorem rerank_take_sorted_bounded (candidates : List CandidateMatch)
    (resp : RerankResponse) (ranked : List CandidateMatch) (top_k : ℕ)
    (hc : rerank_candidates candidates resp = .ok ranked) :
    List.Pairwise rerankRel (ranked.take top_k) ∧
    (ranked.take top_k).length = min top_k candidates.length ∧
    (∀ entries pairs a b, resp.results = some entries →
      parseEntries entries = .ok pairs →
      rerankRel a b →
      List.Sublist [a, b] (assign_scores (scoreLookup pairs) candidates 0) →
      List.Sublist [a, b] ranked) := by
  unfold rerank_candidates at hc
  split at hc
  · -- empty candidate list: the stage returns [] without any service call
    next hemp =>
    obtain rfl : ranked = [] := by cases hc; rfl
    have hlen : candidates = [] := List.isEmpty_iff.mp hemp
    refine ⟨by simp, by simp [hlen], ?_⟩
    intro entries pairs a b _ _ _ hsub
    rw [hlen] at hsub
    simp [assign_scores] at hsub
  · next hemp =>
    split at hc
    · exact absurd hc (fun hh => Except.noConfusion hh)
    · next entries hres =>
      split at hc
      · exact absurd hc (fun hh => Except.noConfusion hh)
      · next pairs hps =>
        obtain rfl : ranked = List.insertionSort rerankRel
            (assign_scores (scoreLookup pairs) candidates 0) := by
          cases hc; rfl
        refine ⟨?_, ?_, ?_⟩
        · exact (List.sorted_insertionSort rerankRel _).sublist
            (List.take_sublist top_k _)
        · rw [List.length_take, List.length_insertionSort, assign_scores_length]
        · intro entries' pairs' a b hres' hps' hab hsub
          obtain rfl : entries' = entries := by
            rw [hres] at hres'; cases hres'; rfl
          obtain rfl : pairs' = pairs := by
            rw [hps] at hps'; cases hps'; rfl
          exact List.pair_sublist_insertionSort hab hsub

/-- A successful rerank of two candidates used to witness
`rerank_take_sorted_bounded`. -/
theorem rerank_take_sorted_bounded_witness :
    rerank_candidates [cmA, cmB] ⟨some [⟨some 0, some (some 1)⟩, ⟨some 1, some (some 2)⟩]⟩ =
      .ok [⟨pB, 1, some 2⟩, ⟨pA, 1, some 1⟩] ∧
    (List.Pairwise rerankRel ([(⟨pB, 1, some 2⟩ : CandidateMatch), ⟨pA, 1, some 1⟩].take 1) ∧
      ([(⟨pB, 1, some 2⟩ : CandidateMatch), ⟨pA, 1, some 1⟩].take 1).length =
        min 1 ([cmA, cmB] : List CandidateMatch).length ∧
      (∀ entries pairs a b,
        (⟨some [⟨some 0, some (some 1)⟩, ⟨some 1, some (some 2)⟩]⟩ : RerankResponse).results = some entries →
        parseEntries entries = .ok pairs →
        rerankRel a b →
        List.Sublist [a, b] (assign_scores (scoreLookup pairs) [cmA, cmB] 0) →
        List.Sublist [a, b] [(⟨pB, 1, some 2⟩ : CandidateMatch), ⟨pA, 1, some 1⟩])) :=
  ⟨by decide,
    rerank_take_sorted_bounded [cmA, cmB]
      ⟨some [⟨some 0, some (some 1)⟩, ⟨some 1, some (some 2)⟩]⟩
      [⟨pB, 1, some 2⟩, ⟨pA, 1, some 1⟩] 1 (by decide)⟩

/-! ## C4 — malformed rerank entries -/

/-- C4 counterexample: a response in which one entry is well-formed and one
entry lacks its `"index"` key aborts the whole run with
`ResearchServiceError("Cohere rerank response contained invalid entries")` —
the malformed entry is not scored as zero and the run does not continue. -/
theorem rerank_malformed_entry_aborts :
    rerank_candidates [cmA] respWithBadEntry =
      .error "Cohere rerank response contained invalid entries" ∧
    ∀ l, rerank_candidates [cmA] respWithBadEntry ≠ .ok l := by
  refine ⟨by decide, ?_⟩
  intro l h
  rw [(by decide : rerank_candidates [cmA] respWithBadEntry =
    .error "Cohere rerank response contained invalid entries")] at h
  exact Except.noConfusion h

/-- C4 (amended): with a non-empty candidate list, an entry whose
`relevance_score` key is merely absent parses with score `0.0`, but any entry
that fails to parse (missing `"index"`, non-numeric score) aborts the whole
rerank with the invalid-entries error; the rerank succeeds exactly when every
entry parses. -/
theorem rerank_entry_error_policy (cs : List CandidateMatch)
    (entries : List RerankEntry) (hcs : cs ≠ []) :
    (∀ i : Int, parseEntry ⟨some i, none⟩ = .ok (i, 0)) ∧
    ((∃ e ∈ entries, (parseEntry e).isOk = false) →
      rerank_candidates cs ⟨some entries⟩ =
        .error "Cohere rerank response contained invalid entries") ∧
    ((∀ e ∈ entries, (parseEntry e).isOk = true) →
      ∃ ranked, rerank_candidates cs ⟨some entries⟩ = .ok ranked) := by
  have hemp : cs.isEmpty = false := by
    cases cs
    · exact absurd rfl hcs
    · rfl
  refine ⟨fun i => rfl, ?_, ?_⟩
  · rintro ⟨e, hmem, hbad⟩
    unfold rerank_candidates
    rw [hemp]
    simp only [Bool.false_eq_true, if_false,
      parseEntries_error_of_mem entries e hmem hbad]
  · intro hall
    obtain ⟨ps, hps⟩ := parseEntries_ok_of_all entries hall
    refine ⟨List.insertionSort rerankRel (assign_scores (scoreLookup ps) cs 0), ?_⟩
    unfold rerank_candidates
    rw [hemp]
    simp only [Bool.false_eq_true, if_false, hps]

/-- Witness for `rerank_entry_error_policy` on a one-candidate list with one
good and one malformed entry. -/
theorem rerank_entry_error_policy_witness :
    ([cmA] : List CandidateMatch) ≠ [] ∧
    ((∀ i : Int, parseEntry ⟨some i, none⟩ = .ok (i, 0)) ∧
      ((∃ e ∈ [(⟨some 0, some (some 1)⟩ : RerankEntry), ⟨none, some (some 1)⟩],
          (parseEntry e).isOk = false) →
        rerank_candidates [cmA] ⟨some [⟨some 0, some (some 1)⟩, ⟨none, some (some 1)⟩]⟩ =
          .error "Cohere rerank response contained invalid entries") ∧
      ((∀ e ∈ [(⟨some 0, some (some 1)⟩ : RerankEntry), ⟨none, some (some 1)⟩],
          (parseEntry e).isOk = true) →
        ∃ ranked, rerank_candidates [cmA]
          ⟨some [⟨some 0, some (some 1)⟩, ⟨none, some (some 1)⟩]⟩ = .ok ranked)) :=
  ⟨by decide, rerank_entry_error_policy [cmA]
    [⟨some 0, some (some 1)⟩, ⟨none, some (some 1)⟩] (by decide)⟩

/-! ## C6 — out-of-range rerank indices are dropped -/

/-- C6: an entry carrying an index outside the valid positions of the
submitted candidate list (negative or `≥ length`), placed anywhere among
otherwise well-formed entries, changes nothing: the rerank output is the one
obtained without that entry. -/
theorem rerank_out_of_range_index_dropped (cs : List CandidateMatch)
    (l₁ l₂ : List RerankEntry) (i : Int) (s : ℚ)
    (hok : ∀ e ∈ l₁ ++ l₂, (parseEntry e).isOk = true)
    (hi : i < 0 ∨ (cs.length : Int) ≤ i) :
    rerank_candidates cs ⟨some (l₁ ++ ⟨some i, some (some s)⟩ :: l₂)⟩ =
      rerank_candidates cs ⟨some (l₁ ++ l₂)⟩ := by
  obtain ⟨p₁, hp₁⟩ := parseEntries_ok_of_all l₁
    (fun e he => hok e (List.mem_append_left l₂ he))
  obtain ⟨p₂, hp₂⟩ := parseEntries_ok_of_all l₂
    (fun e he => hok e (List.mem_append_right l₁ he))
  have hmid : parseEntries ((⟨some i, some (some s)⟩ : RerankEntry) :: l₂) =
      .ok ((i, s) :: p₂) := by
    simp only [parseEntries, parseEntry, hp₂]
  have hL : parseEntries (l₁ ++ ⟨some i, some (some s)⟩ :: l₂) =
      .ok (p₁ ++ (i, s) :: p₂) :=
    parseEntries_append_ok l₁ _ p₁ _ hp₁ hmid
  have hR : parseEntries (l₁ ++ l₂) = .ok (p₁ ++ p₂) :=
    parseEntries_append_ok l₁ l₂ p₁ p₂ hp₁ hp₂
  cases hemp : cs.isEmpty with
  | true => unfold rerank_candidates; rw [hemp]; simp
  | false =>
    unfold rerank_candidates
    rw [hemp]
    simp only [Bool.false_eq_true, if_false, hL, hR]
    have hassign : assign_scores (scoreLookup (p₁ ++ (i, s) :: p₂)) cs 0 =
        assign_scores (scoreLookup (p₁ ++ p₂)) cs 0 := by
      refine assign_scores_congr cs _ _ 0 ?_
      intro j h₁ h₂
      refine scoreLookup_middle p₁ p₂ i s j ?_
      omega
    rw [hassign]

/-- Witness for `rerank_out_of_range_index_dropped`: an `index: 99` entry in
the middle of a valid two-entry response over two candidates. -/
theorem rerank_out_of_range_index_dropped_witness :
    (∀ e ∈ [(⟨some 0, some (some 1)⟩ : RerankEntry), ⟨some 1, some (some 2)⟩],
      (parseEntry e).isOk = true) ∧
    ((99 : Int) < 0 ∨ (([cmA, cmB] : List CandidateMatch).length : Int) ≤ 99) ∧
    rerank_candidates [cmA, cmB]
        ⟨some [⟨some 0, some (some 1)⟩, ⟨some 99, some (some 5)⟩, ⟨some 1, some (some 2)⟩]⟩ =
      rerank_candidates [cmA, cmB] ⟨some [⟨some 0, some (some 1)⟩, ⟨some 1, some (some 2)⟩]⟩ :=
  ⟨by decide, by decide,
    rerank_out_of_range_index_dropped [cmA, cmB]
      [⟨some 0, some (some 1)⟩] [⟨some 1, some (some 2)⟩] 99 5
      (by decide) (by decide)⟩

/-! ## C7 — empty retrieval still completes -/

/-- An empty candidate list short-circuits `_rerank_candidates` before any
external call, whatever the (never-sent) response would have been. -/
theorem rerank_candidates_nil (resp : RerankResponse) :
    rerank_candidates [] resp = .ok [] := rfl

/-- C7: when retrieval produces no candidates, the pipeline still completes:
the rerank stage succeeds with `[]` for every possible response of the
never-called service, no stage raises, and the last emitted event is a
results event carrying the empty list. -/
theorem stream_search_empty_retrieval_completes (sqrtFn : ℕ → ℚ)
    (papers : List ArxivPaper) (expandContent : Option String)
    (rerankResp : RerankResponse) (explainFn : ArxivPaper → Except String String)
    (query : String) (max_results : ℕ) (expansions : List String)
    (hq : pyStripWs query ≠ "")
    (hexp : expand_query query expandContent = .ok expansions)
    (hret : retrieve_candidates sqrtFn papers query expansions (max_results * 4) = []) :
    (stream_search sqrtFn papers expandContent rerankResp explainFn query max_results).2 = none ∧
    (stream_search sqrtFn papers expandContent rerankResp explainFn query
        max_results).1.getLast? = some (.results []) := by
  unfold stream_search
  rw [if_neg hq, hexp]
  simp [hret, rerank_candidates_nil, explainAll]

/-- Witness for `stream_search_empty_retrieval_completes`: a corpus sharing no
token with the query or its expansion, and a garbage rerank response. -/
theorem stream_search_empty_retrieval_completes_witness :
    pyStripWs "zzz" ≠ "" ∧
    expand_query "zzz" (some "qqq") = .ok ["qqq"] ∧
    retrieve_candidates sqrt1 [pB] "zzz" ["qqq"] (3 * 4) = [] ∧
    ((stream_search sqrt1 [pB] (some "qqq") ⟨none⟩ (fun _ => .ok "r") "zzz" 3).2 = none ∧
      (stream_search sqrt1 [pB] (some "qqq") ⟨none⟩
        (fun _ => .ok "r") "zzz" 3).1.getLast? = some (.results [])) := by
  have h1 : tokenize "zzz" = ["zzz"] := by decide
  have h2 : tokenize "qqq" = ["qqq"] := by decide
  have h3 : tokenize pB.to_document = ["bar"] := by decide
  have h4 : interCard ["bar"] ["zzz"] = 0 := by decide
  have h5 : interCard ["bar"] ["qqq"] = 0 := by decide
  have hret : retrieve_candidates sqrt1 [pB] "zzz" ["qqq"] (3 * 4) = [] := by
    simp [retrieve_candidates, retrievalScore, h1, h2, h3, h4, h5, sqrt1]
  exact ⟨by decide, by decide, hret,
    stream_search_empty_retrieval_completes sqrt1 [pB] (some "qqq") ⟨none⟩
      (fun _ => .ok "r") "zzz" 3 ["qqq"] (by decide) (by decide) hret⟩

/-! ## C9 — paper fields survive ranking and explanation -/

/-- Every result built by the explanation loop is `mkResult` of some input
candidate. -/
theorem explainAll_mem (fn : ArxivPaper → Except String String) :
    ∀ (l : List CandidateMatch) (res : List ResearchResult),
      explainAll fn l = .ok res →
      ∀ r ∈ res, ∃ m ∈ l, ∃ j, r = mkResult m j
  | [], res, h, r, hr => by
    obtain rfl : ([] : List ResearchResult) = res := by cases h; rfl
    exact absurd hr (List.not_mem_nil r)
  | m :: rest, res, h, r, hr => by
    cases hfm : fn m.paper with
    | error e =>
      rw [explainAll, hfm] at h
      exact absurd h (fun hh => Except.noConfusion hh)
    | ok j =>
      rw [explainAll, hfm] at h
      cases hrest : explainAll fn rest with
      | error e =>
        rw [hrest] at h
        exact absurd h (fun hh => Except.noConfusion hh)
      | ok res' =>
        rw [hrest] at h
        obtain rfl : mkResult m j :: res' = res := by cases h; rfl
        rcases List.mem_cons.mp hr with hr | hr
        · exact ⟨m, List.mem_cons_self m rest, j, hr⟩
        · obtain ⟨m', hm', j', hj'⟩ := explainAll_mem fn rest res' hrest r hr
          exact ⟨m', List.mem_cons_of_mem m hm', j', hj'⟩

/-- Every element of a successful rerank output carries the paper of some
submitted candidate (scoring and sorting never touch the `paper` field). -/
theorem rerank_ok_papers (cs : List CandidateMatch) (resp : RerankResponse)
    (rk : List CandidateMatch) (h : rerank_candidates cs resp = .ok rk) :
    ∀ m ∈ rk, ∃ c ∈ cs, m.paper = c.paper := by
  unfold rerank_candidates at h
  split at h
  · obtain rfl : rk = [] := by cases h; rfl
    intro m hm
    exact absurd hm (List.not_mem_nil m)
  · split at h
    · exact absurd h (fun hh => Except.noConfusion hh)
    · split at h
      · exact absurd h (fun hh => Except.noConfusion hh)
      · next pairs hps =>
        obtain rfl : rk = List.insertionSort rerankRel
            (assign_scores (scoreLookup pairs) cs 0) := by cases h; rfl
        intro m hm
        exact assign_scores_paper_mem _ cs 0 m ((List.mem_insertionSort rerankRel).mp hm)

/-- C9: every entry of a final results event reports the identity, title and
url of a candidate exactly as retrieved from the corpus — ranking and
explanation change none of these fields. -/
theorem results_preserve_paper_fields (sqrtFn : ℕ → ℚ)
    (papers : List ArxivPaper) (expandContent : Option String)
    (rerankResp : RerankResponse) (explainFn : ArxivPaper → Except String String)
    (query : String) (max_results : ℕ) (expansions : List String)
    (res : List ResearchResult)
    (hexp : expand_query query expandContent = .ok expansions)
    (hres : (stream_search sqrtFn papers expandContent rerankResp explainFn query
        max_results).1.getLast? = some (.results res)) :
    ∀ r ∈ res, ∃ m ∈ retrieve_candidates sqrtFn papers query expansions (max_results * 4),
      r.paper_id = m.paper.paper_id ∧ r.title = m.paper.title ∧ r.url = m.paper.url := by
  unfold stream_search at hres
  split at hres
  · simp at hres
  · split at hres
    · simp at hres
    · next expansions' heq =>
      obtain rfl : expansions' = expansions := by
        rw [hexp] at heq; cases heq; rfl
      dsimp only at hres
      split at hres
      · simp at hres
      · next ranked heq2 =>
        split at hres
        · simp at hres
        · next finalResults heq3 =>
          obtain rfl : finalResults = res := by
            simp only [List.getLast?_cons_cons, List.getLast?_singleton,
              Option.some.injEq, ResearchEvent.results.injEq] at hres
            exact hres
          intro r hr
          obtain ⟨m, hm, j, rfl⟩ := explainAll_mem explainFn _ _ heq3 r hr
          obtain ⟨c, hc, hpaper⟩ := rerank_ok_papers _ _ _ heq2 m
            (List.mem_of_mem_take hm)
          exact ⟨c, hc, by simp [mkResult, hpaper]⟩

/-- Witness for `results_preserve_paper_fields`: a one-paper corpus whose
single candidate survives to the results event with identity, title and url
intact. -/
theorem results_preserve_paper_fields_witness :
    expand_query "foo" (some "__") = .ok ["__"] ∧
    (stream_search sqrt1 [pA] (some "__") ⟨some [⟨some 0, some (some 1)⟩]⟩
        (fun _ => .ok "because") "foo" 3).1.getLast? =
      some (.results [⟨"1", "foo", "", "u", "", 1, "because"⟩]) ∧
    ∀ r ∈ [(⟨"1", "foo", "", "u", "", 1, "because"⟩ : ResearchResult)],
      ∃ m ∈ retrieve_candidates sqrt1 [pA] "foo" ["__"] (3 * 4),
        r.paper_id = m.paper.paper_id ∧ r.title = m.paper.title ∧ r.url = m.paper.url := by
  have h1 : tokenize "foo" = ["foo"] := by decide
  have h2 : tokenize "__" = [] := by decide
  have h3 : tokenize pA.to_document = ["foo"] := by decide
  have h4 : interCard ["foo"] ["foo"] = 1 := by decide
  have hres : (stream_search sqrt1 [pA] (some "__") ⟨some [⟨some 0, some (some 1)⟩]⟩
      (fun _ => .ok "because") "foo" 3).1.getLast? =
      some (.results [⟨"1", "foo", "", "u", "", 1, "because"⟩]) := by
    simp [stream_search, expand_query, retrieve_candidates, retrievalScore,
      h1, h2, h3, h4, sqrt1, rerank_candidates, parseEntries, parseEntry,
      scoreLookup, dictUpd, assign_scores, explainAll, mkResult, pA,
      usableLines, pySplitOn, splitOnChar, pyStripWs, pyStrip]
  exact ⟨by decide, hres,
    results_preserve_paper_fields sqrt1 [pA] (some "__")
      ⟨some [⟨some 0, some (some 1)⟩]⟩ (fun _ => .ok "because") "foo" 3 ["__"]
      [⟨"1", "foo", "", "u", "", 1, "because"⟩] (by decide) hres⟩

/-! ## C5 — one terminal error event per failing run -/

/-- Cons preserves `getLast?` when the tail is non-empty. -/
theorem getLast?_cons_of_ne_nil {α : Type _} (a : α) (l : List α) (h : l ≠ []) :
    (a :: l).getLast? = l.getLast? := by
  cases l with
  | nil => exact absurd rfl h
  | cons b t => exact List.getLast?_cons_cons

/-- A failing explanation loop of the route yields no enriched summaries,
exactly one error event — its last event — and no expansion event. -/
theorem explainLoop_fails (fn : RoutePaper → Except String String) :
    ∀ l : List (RoutePaper × ℚ), l.any (fun p => !(fn p.1).isOk) = true →
      (explainLoop fn l).2 = none ∧
      (explainLoop fn l).1.countP RouteEvent.isErrorEvent = 1 ∧
      (∃ m, (explainLoop fn l).1.getLast? = some (.error m)) ∧
      (explainLoop fn l).1.countP RouteEvent.isExpansionEvent = 0
  | [], h => by simp at h
  | (p, s) :: rest, h => by
    cases hfp : fn p with
    | error e =>
      refine ⟨?_, ?_, ⟨e, ?_⟩, ?_⟩ <;>
        simp [explainLoop, hfp, List.countP_cons, RouteEvent.isErrorEvent,
          RouteEvent.isExpansionEvent, List.getLast?]
    | ok reason =>
      have hrest : rest.any (fun q => !(fn q.1).isOk) = true := by
        simp only [List.any_cons, Bool.or_eq_true] at h
        rcases h with h | h
        · rw [hfp] at h
          exact absurd h (by simp [Except.isOk, Except.toBool])
        · exact h
      obtain ⟨h2, hcount, ⟨m, hlast⟩, hexp0⟩ := explainLoop_fails fn rest hrest
      rcases hsplit : explainLoop fn rest with ⟨evs, o⟩
      rw [hsplit] at h2 hcount hlast hexp0
      obtain rfl : o = none := h2
      have hne : evs ≠ [] := by
        intro hh
        rw [hh] at hlast
        simp at hlast
      refine ⟨?_, ?_, ⟨m, ?_⟩, ?_⟩
      · simp [explainLoop, hfp, hsplit]
      · simp [explainLoop, hfp, hsplit, List.countP_cons,
          RouteEvent.isErrorEvent, hcount]
      · simp only [explainLoop, hfp, hsplit]
        rw [getLast?_cons_of_ne_nil _ _ (List.cons_ne_nil _ _),
          getLast?_cons_of_ne_nil _ _ hne]
        exact hlast
      · simp [explainLoop, hfp, hsplit, List.countP_cons,
          RouteEvent.isExpansionEvent, hexp0]

/-- C5: whenever some stage of the route's run fails mid-stream, the emitted
event sequence contains exactly one error event (carrying the raised
message), that error event is the last event of the stream, and when the
expansion call is the failing stage no expansion event is emitted at all. -/
theorem discover_error_event_terminal (top_k : ℕ)
    (expandR : Except String (List String))
    (retrieveR : Except String (List RoutePaper))
    (rankR : List RoutePaper → ℕ → Except String (List (RoutePaper × ℚ)))
    (explainFn : RoutePaper → Except String String)
    (hfail : discoverFails top_k expandR retrieveR rankR explainFn = true) :
    (discover_event_stream top_k expandR retrieveR rankR explainFn).countP
        RouteEvent.isErrorEvent = 1 ∧
    (∃ m, (discover_event_stream top_k expandR retrieveR rankR explainFn).getLast? =
      some (.error m)) ∧
    (expandR.isOk = false →
      (discover_event_stream top_k expandR retrieveR rankR explainFn).countP
        RouteEvent.isExpansionEvent = 0) := by
  cases expandR with
  | error e =>
    refine ⟨?_, ⟨e, ?_⟩, fun _ => ?_⟩ <;>
      simp [discover_event_stream, List.countP_cons, RouteEvent.isErrorEvent,
        RouteEvent.isExpansionEvent, List.getLast?]
  | ok exps =>
    cases retrieveR with
    | error e =>
      refine ⟨?_, ⟨e, ?_⟩, fun hcontra => ?_⟩
      · simp [discover_event_stream, List.countP_cons, RouteEvent.isErrorEvent]
      · simp [discover_event_stream, List.getLast?]
      · exact absurd hcontra (by simp [Except.isOk, Except.toBool])
    | ok cands =>
      cases hrank : rankR cands top_k with
      | error e =>
        refine ⟨?_, ⟨e, ?_⟩, fun hcontra => ?_⟩
        · simp [discover_event_stream, hrank, List.countP_cons,
            RouteEvent.isErrorEvent]
        · simp [discover_event_stream, hrank, List.getLast?]
        · exact absurd hcontra (by simp [Except.isOk, Except.toBool])
      | ok ranked =>
        have hany : ranked.any (fun p => !(explainFn p.1).isOk) = true := by
          simpa [discoverFails, hrank] using hfail
        obtain ⟨h2, hcount, ⟨m, hlast⟩, hexp0⟩ := explainLoop_fails explainFn ranked hany
        rcases hsplit : explainLoop explainFn ranked with ⟨evs, o⟩
        rw [hsplit] at h2 hcount hlast hexp0
        obtain rfl : o = none := h2
        have hne : evs ≠ [] := by
          intro hh
          rw [hh] at hlast
          simp at hlast
        refine ⟨?_, ⟨m, ?_⟩, fun hcontra => ?_⟩
        · simp [discover_event_stream, hrank, hsplit, List.countP_cons,
            RouteEvent.isErrorEvent, hcount]
        · simp only [discover_event_stream, hrank, hsplit]
          rw [getLast?_cons_of_ne_nil _ _ (List.cons_ne_nil _ _),
            getLast?_cons_of_ne_nil _ _ (List.cons_ne_nil _ _),
            getLast?_cons_of_ne_nil _ _ (List.cons_ne_nil _ _),
            getLast?_cons_of_ne_nil _ _ (List.cons_ne_nil _ _),
            getLast?_cons_of_ne_nil _ _ (List.cons_ne_nil _ _),
            getLast?_cons_of_ne_nil _ _ hne]
          exact hlast
        · exact absurd hcontra (by simp [Except.isOk, Except.toBool])

/-- Witness for `discover_error_event_terminal`: the expansion stage fails
with the transport error message of `_expand_query`. -/
theorem discover_error_event_terminal_witness :
    discoverFails 5 (.error "Failed to expand query with GPT-5") (.ok [])
        (fun _ _ => .ok []) (fun _ => .ok "r") = true ∧
    ((discover_event_stream 5 (.error "Failed to expand query with GPT-5")
        (.ok []) (fun _ _ => .ok []) (fun _ => .ok "r")).countP
          RouteEvent.isErrorEvent = 1 ∧
      (∃ m, (discover_event_stream 5 (.error "Failed to expand query with GPT-5")
        (.ok []) (fun _ _ => .ok []) (fun _ => .ok "r")).getLast? =
          some (.error m)) ∧
      ((Except.error "Failed to expand query with GPT-5" :
          Except String (List String)).isOk = false →
        (discover_event_stream 5 (.error "Failed to expand query with GPT-5")
          (.ok []) (fun _ _ => .ok []) (fun _ => .ok "r")).countP
            RouteEvent.isExpansionEvent = 0)) :=
  ⟨rfl, discover_error_event_terminal 5 (.error "Failed to expand query with GPT-5")
    (.ok []) (fun _ _ => .ok []) (fun _ => .ok "r") rfl⟩

end Research
